import Mathlib

/-!
# hallor: `static/js/theme.js`

A shallow embedding of the two components of `theme.js`:

* `ThemeManager` (lines 6-60): mirrors the platform colour scheme onto the
  `data-bs-theme` attribute of `document.documentElement`;
* `initializeImageOrientationDetection` (lines 74-136): labels the nearest
  `.post-image-container` of every `.post-image` with one of the classes
  `landscape`, `portrait`, `square`.

The page is an explicit state (`Page`); every function of the script becomes a
function on that state.  Elements are addressed by their path from the
document element (list of child indices).  JavaScript numbers are modelled by
their exact values (`JSNumber`), with `NaN` and the infinities as separate
constructors; comparisons follow ECMAScript (every comparison with `NaN` is
false).
-/

namespace Hallor

/-! ## JavaScript numbers -/

/-- A JavaScript Number: `NaN`, the two infinities, or a finite value.  Finite
doubles are represented by the rational they denote. -/
inductive JSNumber where
  | nan
  | posInf
  | negInf
  | fin (q : ℚ)

/-- The ECMAScript relation `a > b` on Numbers (false as soon as one side is `NaN`). -/
def JSNumber.gt : JSNumber → JSNumber → Bool
  | .fin a, .fin b => decide (b < a)
  | .posInf, .fin _ => true
  | .posInf, .negInf => true
  | .fin _, .negInf => true
  | _, _ => false

/-- The ECMAScript relation `a < b` on Numbers. -/
def JSNumber.lt (a b : JSNumber) : Bool := JSNumber.gt b a

/-- The ECMAScript relation `a <= b` on Numbers (false as soon as one side is `NaN`). -/
def JSNumber.le : JSNumber → JSNumber → Bool
  | .nan, _ => false
  | _, .nan => false
  | a, b => !(JSNumber.gt a b)

/-- The Number denoted by the source literal `1.3`: the double nearest to 13/10,
which is `5854679515581645 * 2^-52` (bit pattern `0x3FF4CCCCCCCCCCCD`). -/
def lit_1_3 : JSNumber := .fin (5854679515581645 / 4503599627370496)

/-- The Number denoted by the source literal `0.9`: the double nearest to 9/10,
which is `8106479329266893 * 2^-53` (bit pattern `0x3FECCCCCCCCCCCCD`). -/
def lit_0_9 : JSNumber := .fin (8106479329266893 / 9007199254740992)

/-- Number of binary digits of `n` (0 for 0). -/
def bitLength (n : Nat) : Nat :=
  go n n
where
  go : Nat → Nat → Nat
    | 0, _ => 0
    | fuel + 1, n => if n = 0 then 0 else go fuel (n / 2) + 1

/-- For positive `w`, `h`: the integer `e` with `2^e ≤ w / h < 2^(e+1)`. -/
def floorLog2 (w h : Nat) : Int :=
  let a := bitLength w - 1
  let b := bitLength h - 1
  if b ≤ a then
    if h * 2 ^ (a - b) ≤ w then ((a - b : Nat) : Int) else ((a - b : Nat) : Int) - 1
  else
    if h ≤ w * 2 ^ (b - a) then -((b - a : Nat) : Int) else -((b - a : Nat) : Int) - 1

/-- Nearest integer to `n / d`, ties to even. -/
def roundHalfEven (n d : Nat) : Nat :=
  let q := n / d
  let r := n % d
  if 2 * r < d then q else if d < 2 * r then q + 1 else if q % 2 = 0 then q else q + 1

/-- For positive `w`, `h`: the pair `(m, e)` such that the double nearest to
`w / h` (round to nearest, ties to even, 53 bits of precision) is `m * 2^e`. -/
def divMantissa (w h : Nat) : Nat × Int :=
  let s : Int := 52 - floorLog2 w h
  (roundHalfEven (w * 2 ^ s.toNat) (h * 2 ^ (-s).toNat), -s)

/-- The JavaScript division `w / h` of two non-negative integers (line 81:
`img.naturalWidth / img.naturalHeight`; both are `unsigned long`, so neither
overflow nor underflow can occur): `0 / 0` is `NaN`, `w / 0` is `Infinity`,
otherwise the quotient rounded to the nearest double. -/
def jsDiv (w h : Nat) : JSNumber :=
  if h = 0 then (if w = 0 then .nan else .posInf)
  else if w = 0 then .fin 0
  else .fin ((divMantissa w h).1 * (2 : ℚ) ^ (divMantissa w h).2)

/-! ## The document tree -/

/-- The properties of an element the script reads or writes: its attributes
other than `class`, its class list, and the three `HTMLImageElement` properties
`naturalWidth`, `naturalHeight` and `complete`.  An element that is not an
image, or an image whose data is not available, has dimensions 0, for which the
division of line 81 gives `NaN` as it does for `undefined / undefined`. -/
structure ElementProps where
  attributes : List (String × String)
  classList : List String
  naturalWidth : Nat
  naturalHeight : Nat
  complete : Bool

/-- An element of the document: its properties and its child elements. -/
inductive Element where
  | mk (props : ElementProps) (children : List Element)

/-- A reference to an element: the child indices leading to it from the
document element. -/
abbrev NodeRef := List Nat

namespace Element

/-- Properties of an element. -/
def props : Element → ElementProps
  | .mk p _ => p

/-- Class list of an element. -/
def classList (e : Element) : List String := e.props.classList

/-- Natural width of an image. -/
def naturalWidth (e : Element) : Nat := e.props.naturalWidth

/-- Natural height of an image. -/
def naturalHeight (e : Element) : Nat := e.props.naturalHeight

/-- Whether the browser has finished fetching the image (property `complete`). -/
def complete (e : Element) : Bool := e.props.complete

/-- Child elements. -/
def children : Element → List Element
  | .mk _ cs => cs

/-- The element a reference points to, if any. -/
def get? : Element → NodeRef → Option Element
  | e, [] => some e
  | .mk _ cs, i :: p =>
    match cs.get? i with
    | some c => c.get? p
    | none => none

/-- Replaces the properties of the element at `p` by `u` of them; nothing
happens when `p` points nowhere. -/
def update (u : ElementProps → ElementProps) : Element → NodeRef → Element
  | .mk pr cs, [] => .mk (u pr) cs
  | .mk pr cs, i :: p =>
    match cs.get? i with
    | some child => .mk pr (cs.set i (update u child p))
    | none => .mk pr cs

/-- Replaces the class list of the element at `p` by `f` of it. -/
def updateClassList (f : List String → List String) (doc : Element) (p : NodeRef) : Element :=
  doc.update (fun pr => { pr with classList := f pr.classList }) p

/-- The method `Element.closest` for a class selector, called on the element
at `p`: its nearest inclusive ancestor that carries the class `cls` (see
`closest_nearest` and `closest_none_valid` below). -/
def closest (cls : String) : Element → NodeRef → Option NodeRef
  | e, [] => if cls ∈ e.classList then some [] else none
  | .mk pr cs, i :: p =>
    match cs.get? i with
    | none => none
    | some child =>
      match closest cls child p with
      | some q => some (i :: q)
      | none => if cls ∈ pr.classList then some [] else none

/-- The method `Element.querySelectorAll` for a class selector: the proper
descendants carrying the class `cls`, in document order. -/
def querySelectorAll (cls : String) : Element → List NodeRef
  | .mk _ cs => go cs 0
where
  go : List Element → Nat → List NodeRef
    | [], _ => []
    | c :: cs, i =>
      ((if cls ∈ c.classList then [[i]] else [])
        ++ (querySelectorAll cls c).map (fun q => i :: q)) ++ go cs (i + 1)

/-- The method `Element.getAttribute`. -/
def getAttribute (e : Element) (name : String) : Option String :=
  (e.props.attributes.find? (fun kv => kv.1 == name)).map (fun kv => kv.2)

/-- Attribute list after `setAttribute(name, value)`: the value of an existing
attribute is replaced, a new attribute is appended. -/
def setAttr (name value : String) : List (String × String) → List (String × String)
  | [] => [(name, value)]
  | kv :: rest => if kv.1 == name then (name, value) :: rest else kv :: setAttr name value rest

/-- The method `Element.setAttribute`. -/
def setAttribute : Element → String → String → Element
  | .mk pr cs, name, value => .mk { pr with attributes := setAttr name value pr.attributes } cs

/-- The method `Node.appendChild`, called on the element at the given
reference: `child` becomes its last child, so references to existing elements
stay valid. -/
def appendChild : Element → NodeRef → Element → Element
  | .mk pr cs, [], child => .mk pr (cs ++ [child])
  | .mk pr cs, i :: p, child =>
    match cs.get? i with
    | some e => .mk pr (cs.set i (appendChild e p child))
    | none => .mk pr cs

/-- An element that is not an image (`naturalWidth`, `naturalHeight` and
`complete` are undefined on it), with the given classes and children. -/
def div (classes : List String) (children : List Element) : Element :=
  .mk ⟨[], classes, 0, 0, false⟩ children

/-- An image element with the given classes, natural dimensions and `complete`. -/
def img (classes : List String) (w h : Nat) (complete : Bool) : Element :=
  .mk ⟨[], classes, w, h, complete⟩ []

end Element

/-- The method `DOMTokenList.remove(...tokens)`. -/
def DOMTokenList.remove (tokens : List String) (classList : List String) : List String :=
  classList.filter (fun t => decide (t ∉ tokens))

/-- The method `DOMTokenList.add(token)`. -/
def DOMTokenList.add (token : String) (classList : List String) : List String :=
  if token ∈ classList then classList else classList ++ [token]

/-- The method `document.querySelectorAll` for a class selector: every element
of the document carrying the class, the document element included. -/
def documentQuerySelectorAll (cls : String) (document : Element) : List NodeRef :=
  (if cls ∈ document.classList then [[]] else []) ++ document.querySelectorAll cls

/-! ## Page state -/

/-- The part of `window` the script reads: `matchMedia`, absent or a function
giving for a media query whether it currently matches (the `matches` property
of the returned `MediaQueryList`). -/
structure Window where
  matchMedia : Option (String → Bool)

/-- Instance state of the class `ThemeManager`. -/
structure ThemeManager where
  theme : String

/-- The state of the page: the window, the document tree, the `ThemeManager`
instance, the number of `change` listeners registered by `init` on the
dark-scheme media query, the `load` listeners registered on images (one entry
per `addEventListener` call, each listener calling `detectImageOrientation`
on that image), and the number of mutation observers installed. -/
structure Page where
  window : Window
  document : Element
  themeManager : ThemeManager
  changeListeners : Nat
  loadListeners : List NodeRef
  mutationObservers : Nat

/-! ## ThemeManager (lines 6-60) -/

/-- Lines 15-20, `getSystemTheme`. -/
def getSystemTheme (window : Window) : String :=
  match window.matchMedia with
  | some matchMedia => if matchMedia "(prefers-color-scheme: dark)" then "dark" else "light"
  | none => "light"

/-- Lines 26-29, `applyTheme`. -/
def applyTheme (page : Page) (theme : String) : Page :=
  { page with
    document := page.document.setAttribute "data-bs-theme" theme
    themeManager := { page.themeManager with theme := theme } }

/-- Lines 34-51, `init`.  The `MediaQueryList` that `matchMedia` returns is an
`EventTarget`, so the call of `addEventListener` registers the listener. -/
def init (page : Page) : Page :=
  let page :=
    { page with themeManager := { page.themeManager with theme := getSystemTheme page.window } }
  let page := applyTheme page page.themeManager.theme
  match page.window.matchMedia with
  | some _ => { page with changeListeners := page.changeListeners + 1 }
  | none => page

/-- Lines 7-10, the constructor of `ThemeManager`. -/
def ThemeManager.new (page : Page) : Page :=
  init { page with themeManager := { theme := getSystemTheme page.window } }

/-- Lines 57-59, `getCurrentTheme`. -/
def getCurrentTheme (page : Page) : String :=
  page.themeManager.theme

/-- The event object passed to `change` listeners of a `MediaQueryList`. -/
structure MediaQueryListEvent where
  «matches» : Bool

/-- Lines 44-46, the listener `handleThemeChange`. -/
def handleThemeChange (page : Page) (e : MediaQueryListEvent) : Page :=
  applyTheme page (if e.matches then "dark" else "light")

/-- The browser dispatching a `change` event of the dark-scheme media query:
every registered listener runs once. -/
def dispatchChange (page : Page) (e : MediaQueryListEvent) : Page :=
  (fun p => handleThemeChange p e)^[page.changeListeners] page

/-! ## Image orientation (lines 74-136) -/

/-- Lines 87-93: the class chosen for an aspect ratio. -/
def orientationClass (r : JSNumber) : String :=
  if r.gt lit_1_3 then "landscape"
  else if r.lt lit_0_9 then "portrait"
  else "square"

/-- Lines 84-93: what `detectImageOrientation` does to the class list of the
container, given the aspect ratio. -/
def relabel (r : JSNumber) (classList : List String) : List String :=
  DOMTokenList.add (orientationClass r)
    (DOMTokenList.remove ["portrait", "landscape", "square"] classList)

/-- Lines 76-94, `detectImageOrientation`: the document after the call.  Without
a container (line 78) the document is returned as it is; so it is for a
reference that points to no element, which the script never passes. -/
def detectImageOrientation (document : Element) (img : NodeRef) : Element :=
  match document.get? img, document.closest "post-image-container" img with
  | some el, some container =>
    document.updateClassList (relabel (jsDiv el.naturalWidth el.naturalHeight)) container
  | _, _ => document

/-- Lines 98-106 and 119-125: the callback run for each image found: classify at
once when `complete` is true, otherwise register a `load` listener. -/
def scheduleImage (page : Page) (img : NodeRef) : Page :=
  match page.document.get? img with
  | some el =>
    if el.complete then { page with document := detectImageOrientation page.document img }
    else { page with loadListeners := page.loadListeners ++ [img] }
  | none => page

/-- The properties of an image once the browser has loaded it with natural
dimensions `w` by `h`. -/
def ElementProps.loaded (w h : Nat) (pr : ElementProps) : ElementProps :=
  { pr with naturalWidth := w, naturalHeight := h, complete := true }

/-- The browser completing the load of the image `img` with natural dimensions
`w` by `h`: the image properties are set, then the `load` event is dispatched
and every listener registered on the image runs, in registration order. -/
def dispatchLoad (page : Page) (img : NodeRef) (w h : Nat) : Page :=
  { page with
    document := (page.loadListeners.filter (fun l => decide (l = img))).foldl
      detectImageOrientation (page.document.update (ElementProps.loaded w h) img) }

/-- The value of the variable `images` of line 114: a `NodeList` (the result
of `querySelectorAll`) or an `Array` (the literal `[]`). -/
inductive ImageList where
  | nodeList (items : List NodeRef)
  | array (items : List NodeRef)

/-- Elements of the collection, as visited by `forEach`. -/
def ImageList.items : ImageList → List NodeRef
  | .nodeList xs => xs
  | .array xs => xs

/-- The call `images.push(node)` of line 116.  `NodeList` has no method `push`
(its interface is `item`, `length`, `entries`, `forEach`, `keys`, `values`),
so the call throws a `TypeError`; on an `Array` it appends. -/
def ImageList.push : ImageList → NodeRef → Except String ImageList
  | .nodeList _, _ => .error "TypeError: images.push is not a function"
  | .array xs, x => .ok (.array (xs ++ [x]))

/-- A node listed in `MutationRecord.addedNodes`: an element of the document,
or a node of another type (text, comment). -/
inductive AddedNode where
  | element (ref : NodeRef)
  | other

/-- The only field of a `MutationRecord` the script reads. -/
structure MutationRecord where
  addedNodes : List AddedNode

/-- How a piece of script ends: the page it leaves, and the exception it
threw, if any. -/
structure Completion where
  page : Page
  thrown : Option String

/-- The method `forEach` with a callback that may throw: the first exception
ends the iteration. -/
def forEachThrowing {α : Type} (f : Page → α → Completion) : List α → Page → Completion
  | [], page => ⟨page, none⟩
  | x :: xs, page =>
    match f page x with
    | ⟨page1, none⟩ => forEachThrowing f xs page1
    | ⟨page1, some err⟩ => ⟨page1, some err⟩

/-- Lines 111-127: the callback run for each added node.  An element always
has `querySelectorAll` and `classList`, so line 114 takes its first branch and
the first conjunct of line 115 holds. -/
def handleAddedNode (page : Page) (node : AddedNode) : Completion :=
  match node with
  | .other => ⟨page, none⟩
  | .element ref =>
    match page.document.get? ref with
    | none => ⟨page, none⟩
    | some el =>
      let images := ImageList.nodeList ((el.querySelectorAll "post-image").map (fun q => ref ++ q))
      let pushed := if "post-image" ∈ el.classList then images.push ref else .ok images
      match pushed with
      | .error err => ⟨page, some err⟩
      | .ok images => ⟨images.items.foldl scheduleImage page, none⟩

/-- Lines 109-129: the callback of the `MutationObserver`. -/
def mutationCallback (page : Page) (mutations : List MutationRecord) : Completion :=
  forEachThrowing (fun p mutation => forEachThrowing handleAddedNode mutation.addedNodes p)
    mutations page

/-- Lines 74-136, `initializeImageOrientationDetection`. -/
def initializeImageOrientationDetection (page : Page) : Page :=
  let page := (documentQuerySelectorAll "post-image" page.document).foldl scheduleImage page
  { page with mutationObservers := page.mutationObservers + 1 }

/-- Lines 63-68: the `DOMContentLoaded` listener. -/
def domContentLoaded (page : Page) : Page :=
  initializeImageOrientationDetection (ThemeManager.new page)

/-- The three orientation classes. -/
def orientationLabels : List String := ["landscape", "portrait", "square"]

/-- The orientation classes present in a class list. -/
def labelsOf (classList : List String) : List String :=
  classList.filter (fun t => decide (t ∈ orientationLabels))

/-- The class list of the element at `ref` (empty when `ref` points nowhere). -/
def classListAt (document : Element) (ref : NodeRef) : List String :=
  match document.get? ref with
  | some el => el.classList
  | none => []

/-! ## Example pages -/

/-- A page whose only post image is broken: the fetch has failed, so `complete`
is true, the natural dimensions are 0, and no `load` event will ever fire.  Its
container carries no orientation label. -/
def brokenImagePage : Page :=
  ⟨⟨none⟩, .div [] [.div ["post-image-container"] [.img ["post-image"] 0 0 true]],
    ⟨"light"⟩, 0, [], 0⟩

/-- The page `brokenImagePage` seen before the fetch of the image has failed:
`complete` is still false.  No `load` event will ever fire on the image. -/
def pendingBrokenImagePage : Page :=
  ⟨⟨none⟩, .div [] [.div ["post-image-container"] [.img ["post-image"] 0 0 false]],
    ⟨"light"⟩, 0, [], 0⟩

/-- A page with one empty image container, after `DOMContentLoaded`. -/
def galleryPage : Page :=
  domContentLoaded ⟨⟨none⟩, .div [] [.div ["post-image-container"] []], ⟨"light"⟩, 0, [], 0⟩

/-- The page `galleryPage` after a script has appended a post image, not loaded
yet, to the container. -/
def galleryWithImage : Page :=
  { galleryPage with
    document := galleryPage.document.appendChild [0] (.img ["post-image"] 0 0 false) }

/-- The page `galleryPage` after a script has appended to the container a
wrapper element that holds a post image, not loaded yet. -/
def galleryWithWrappedImage : Page :=
  { galleryPage with
    document := galleryPage.document.appendChild [0]
      (.div ["figure"] [.img ["post-image"] 0 0 false]) }

/-! ## The division of line 81 against the exact thresholds -/

theorem bitLength_go_spec :
    ∀ (fuel n : Nat), n ≤ fuel → 0 < n →
      2 ^ (bitLength.go fuel n - 1) ≤ n ∧ n < 2 ^ (bitLength.go fuel n) := by
  intro fuel
  induction fuel with
  | zero => intro n h1 h2; omega
  | succ fuel ih =>
    intro n h1 h2
    rw [bitLength.go, if_neg (by omega)]
    by_cases h3 : n / 2 = 0
    · have hn : n = 1 := by omega
      subst hn
      have : bitLength.go fuel (1 / 2) = 0 := by
        cases fuel <;> simp [bitLength.go]
      rw [this]
      simp
    · obtain ⟨k1, k2⟩ := ih (n / 2) (by omega) (by omega)
      have hpos : 0 < bitLength.go fuel (n / 2) := by
        by_contra hz
        have : bitLength.go fuel (n / 2) = 0 := by omega
        rw [this] at k2
        simp at k2
        exact h3 k2
      simp only [Nat.add_sub_cancel]
      constructor
      · have : 2 ^ bitLength.go fuel (n / 2) = 2 * 2 ^ (bitLength.go fuel (n / 2) - 1) := by
          rw [← pow_succ']
          congr 1
          omega
        rw [this]
        omega
      · rw [pow_succ]
        omega

theorem bitLength_spec (n : Nat) (h : 0 < n) :
    2 ^ (bitLength n - 1) ≤ n ∧ n < 2 ^ (bitLength n) :=
  bitLength_go_spec n n (le_refl n) h

theorem bitLength_pos (n : Nat) (h : 0 < n) : 0 < bitLength n := by
  by_contra hz
  have h0 : bitLength n = 0 := by omega
  have := (bitLength_spec n h).2
  rw [h0] at this
  omega

/-- The exponent `floorLog2 w h` brackets the quotient: with `e` the exponent,
`2^e ≤ w / h < 2^(e+1)`, written without division. -/
theorem floorLog2_spec (w h : Nat) (hw : 0 < w) (hh : 0 < h) :
    h * 2 ^ (floorLog2 w h).toNat ≤ w * 2 ^ (-(floorLog2 w h)).toNat
      ∧ w * 2 ^ (-(floorLog2 w h)).toNat < 2 * (h * 2 ^ (floorLog2 w h).toNat) := by
  obtain ⟨hA, hA1⟩ := bitLength_spec w hw
  obtain ⟨hB, hB1⟩ := bitLength_spec h hh
  have hwpos := bitLength_pos w hw
  have hhpos := bitLength_pos h hh
  unfold floorLog2
  simp only []
  generalize ha : bitLength w - 1 = a at hA ⊢
  generalize hb : bitLength h - 1 = b at hB ⊢
  have hA2 : w < 2 * 2 ^ a := by
    have : bitLength w = a + 1 := by omega
    rw [this, pow_succ] at hA1
    omega
  have hB2 : h < 2 * 2 ^ b := by
    have : bitLength h = b + 1 := by omega
    rw [this, pow_succ] at hB1
    omega
  by_cases hba : b ≤ a
  · rw [if_pos hba]
    obtain ⟨d, rfl⟩ := Nat.exists_eq_add_of_le hba
    have hd : b + d - b = d := by omega
    rw [hd]
    rw [pow_add] at hA hA2
    have hD : 0 < 2 ^ d := Nat.pow_pos (by norm_num)
    have hBD : 2 ^ b * 2 ^ d ≤ h * 2 ^ d := Nat.mul_le_mul_right _ hB
    by_cases h1 : h * 2 ^ d ≤ w
    · rw [if_pos h1]
      simp only [Int.toNat_ofNat, Int.toNat_neg_nat, pow_zero, mul_one]
      exact ⟨h1, by omega⟩
    · rw [if_neg h1]
      cases d with
      | zero =>
        simp only [pow_zero, mul_one] at *
        have e1 : ((0 : Nat) : Int) - 1 = -1 := by norm_num
        rw [e1]
        simp only [Int.reduceNeg, Int.reduceToNat, pow_zero, mul_one, neg_neg, pow_one]
        omega
      | succ d1 =>
        have e1 : ((d1 + 1 : Nat) : Int) - 1 = (d1 : Int) := by push_cast; ring
        rw [e1]
        simp only [Int.toNat_ofNat, Int.toNat_neg_nat, pow_zero, mul_one]
        rw [pow_succ] at hA hA2 hBD h1
        have hB3 : h * 2 ^ d1 < 2 * 2 ^ b * 2 ^ d1 :=
          Nat.mul_lt_mul_of_pos_right hB2 (Nat.pow_pos (by norm_num))
        constructor
        · nlinarith
        · nlinarith
  · rw [if_neg hba]
    obtain ⟨d, rfl⟩ := Nat.exists_eq_add_of_le (Nat.le_of_lt (Nat.lt_of_not_le hba))
    have hd : a + d - a = d := by omega
    rw [hd]
    rw [pow_add] at hB hB2
    have hD : 0 < 2 ^ d := Nat.pow_pos (by norm_num)
    have hAD : 2 ^ a * 2 ^ d ≤ w * 2 ^ d := Nat.mul_le_mul_right _ hA
    have hAD2 : w * 2 ^ d < 2 * 2 ^ a * 2 ^ d := Nat.mul_lt_mul_of_pos_right hA2 hD
    by_cases h1 : h ≤ w * 2 ^ d
    · rw [if_pos h1]
      simp only [Int.toNat_neg_nat, neg_neg, Int.toNat_ofNat, pow_zero, mul_one]
      exact ⟨h1, by nlinarith⟩
    · rw [if_neg h1]
      have e1 : (-((d : Nat) : Int) - 1).toNat = 0 := by omega
      have e2 : (-(-((d : Nat) : Int) - 1)).toNat = d + 1 := by omega
      rw [e1, e2, pow_succ]
      simp only [pow_zero, mul_one]
      have e3 : w * (2 ^ d * 2) = 2 * (w * 2 ^ d) := by ring
      rw [e3]
      omega

/-- The rounded quotient is within one half of the exact quotient. -/
theorem roundHalfEven_spec (n d : Nat) (hd : 0 < d) :
    2 * (d * roundHalfEven n d) ≤ 2 * n + d ∧ 2 * n ≤ 2 * (d * roundHalfEven n d) + d := by
  have h1 := Nat.div_add_mod n d
  have h2 := Nat.mod_lt n hd
  unfold roundHalfEven
  simp only []
  generalize n / d = q at h1 ⊢
  generalize n % d = r at h1 h2 ⊢
  split
  · omega
  · split
    · rw [Nat.mul_add]
      omega
    · split
      · omega
      · rw [Nat.mul_add]
        omega

theorem fin_gt_fin_iff (m S L D : Nat) (hD : 0 < D) :
    (JSNumber.fin ((m : ℚ) * (2 : ℚ) ^ (-(S : ℤ)))).gt (.fin ((L : ℚ) / (D : ℚ))) = true
      ↔ L * 2 ^ S < m * D := by
  simp only [JSNumber.gt, decide_eq_true_eq]
  rw [zpow_neg, zpow_natCast, ← div_eq_mul_inv, div_lt_div_iff₀ (by positivity) (by positivity)]
  norm_cast

theorem fin_lt_fin_iff (m S L D : Nat) (hD : 0 < D) :
    (JSNumber.fin ((m : ℚ) * (2 : ℚ) ^ (-(S : ℤ)))).lt (.fin ((L : ℚ) / (D : ℚ))) = true
      ↔ m * D < L * 2 ^ S := by
  simp only [JSNumber.lt, JSNumber.gt, decide_eq_true_eq]
  rw [zpow_neg, zpow_natCast, ← div_eq_mul_inv, div_lt_div_iff₀ (by positivity) (by positivity)]
  norm_cast

/-- For dimensions below `2^32` the quotient is rounded at a non-negative
scale: the double is `m / 2^S` with `m` the rounding of `w * 2^S / h`. -/
theorem jsDiv_eq (w h : Nat) (hw : 0 < w) (hh : 0 < h) (hw32 : w < 2 ^ 32) :
    ∃ S E K : Nat, (52 : Int) - floorLog2 w h = (S : Int)
      ∧ (floorLog2 w h).toNat = E ∧ (-(floorLog2 w h)).toNat = K
      ∧ S + E = 52 + K ∧ (E = 0 ∨ K = 0) ∧ E < 32
      ∧ jsDiv w h = .fin ((roundHalfEven (w * 2 ^ S) h : ℚ) * (2 : ℚ) ^ (-(S : ℤ))) := by
  obtain ⟨k1, _⟩ := floorLog2_spec w h hw hh
  have hE : (floorLog2 w h).toNat < 32 := by
    by_contra hge
    have h1 : 2 ^ 32 ≤ 2 ^ (floorLog2 w h).toNat := Nat.pow_le_pow_right (by norm_num) (by omega)
    have h2 : (-(floorLog2 w h)).toNat = 0 := by omega
    rw [h2, pow_zero, mul_one] at k1
    have h3 : 1 * 2 ^ (floorLog2 w h).toNat ≤ h * 2 ^ (floorLog2 w h).toNat :=
      Nat.mul_le_mul_right _ hh
    omega
  refine ⟨((52 : Int) - floorLog2 w h).toNat, (floorLog2 w h).toNat, (-(floorLog2 w h)).toNat,
    by omega, rfl, rfl, by omega, by omega, hE, ?_⟩
  unfold jsDiv divMantissa
  rw [if_neg (by omega), if_neg (by omega)]
  simp only []
  have e1 : (-((52 : Int) - floorLog2 w h)).toNat = 0 := by omega
  have e2 : -((52 : Int) - floorLog2 w h) = -((((52 : Int) - floorLog2 w h).toNat : Nat) : Int) := by
    omega
  rw [e1, pow_zero, mul_one]
  rw [e2]

/-- For image dimensions below `2^32` the comparison of line 87 on the rounded
quotient decides `w / h > 13/10` exactly. -/
theorem jsDiv_gt_1_3_iff (w h : Nat) (hw : 0 < w) (hh : 0 < h) (hw32 : w < 2 ^ 32)
    (hh32 : h < 2 ^ 32) : (jsDiv w h).gt lit_1_3 = true ↔ 13 * h < 10 * w := by
  obtain ⟨S, E, K, hS, hE, hK, hSE, hEK, hE32, hval⟩ := jsDiv_eq w h hw hh hw32
  obtain ⟨k1, k2⟩ := floorLog2_spec w h hw hh
  rw [hE, hK] at k1 k2
  obtain ⟨r1, r2⟩ := roundHalfEven_spec (w * 2 ^ S) h hh
  generalize roundHalfEven (w * 2 ^ S) h = m at r1 r2 hval
  have hlit : lit_1_3 = .fin (((5854679515581645 : Nat) : ℚ) / ((4503599627370496 : Nat) : ℚ)) := by
    unfold lit_1_3
    norm_num
  rw [hval, hlit, fin_gt_fin_iff m S _ _ (by norm_num)]
  constructor
  · -- the double exceeds the literal, so the quotient exceeds 13/10
    intro hgt
    by_contra hle
    have hle1 : 10 * w ≤ 13 * h := by omega
    -- then the quotient is below 2, so the scale is at least 52
    have hE0 : E = 0 := by
      by_contra hne
      have hK0 : K = 0 := by omega
      subst hK0
      have h2 : 2 ^ 1 ≤ 2 ^ E := Nat.pow_le_pow_right (by norm_num) (by omega)
      have h3 : h * 2 ^ 1 ≤ h * 2 ^ E := Nat.mul_le_mul_left _ h2
      omega
    subst hE0
    have hSK : S = 52 + K := by omega
    subst hSK
    rw [pow_add] at hgt r1
    have hKpos : 0 < 2 ^ K := Nat.pow_pos (by norm_num)
    generalize 2 ^ K = P at hgt r1 hKpos
    -- 20 h m ≤ 20 w 2^S + 10 h ≤ h (26 2^S + 10)
    have h4 : 10 * w * (2 ^ 52 * P) ≤ 13 * h * (2 ^ 52 * P) := Nat.mul_le_mul_right _ hle1
    have h5 : h * (20 * m) ≤ h * (26 * (2 ^ 52 * P) + 10) := by
      have e1 : h * (20 * m) = 10 * (2 * (h * m)) := by ring
      have e2 : h * (26 * (2 ^ 52 * P) + 10) = 2 * (13 * h * (2 ^ 52 * P)) + 10 * h := by ring
      have e3 : 10 * w * (2 ^ 52 * P) = 10 * (w * (2 ^ 52 * P)) := by ring
      rw [e1, e2]
      rw [e3] at h4
      omega
    have h6 := Nat.le_of_mul_le_mul_left h5 hh
    omega
  · -- the quotient exceeds 13/10, so the double exceeds the literal
    intro hlt
    have hK0 : K = 0 := by
      by_contra hne
      have hE0 : E = 0 := by omega
      subst hE0
      have h2 : 2 ^ 1 ≤ 2 ^ K := Nat.pow_le_pow_right (by norm_num) (by omega)
      have h3 : w * 2 ^ 1 ≤ w * 2 ^ K := Nat.mul_le_mul_left _ h2
      omega
    subst hK0
    simp only [pow_zero, mul_one] at k1 k2
    by_cases hE0 : E = 0
    · subst hE0
      have hS52 : S = 52 := by omega
      subst hS52
      by_contra hnot
      have hm : m ≤ 5854679515581645 := by omega
      have h7 : h * m ≤ h * 5854679515581645 := Nat.mul_le_mul_left _ hm
      have e3 : w * 2 ^ 52 = 4503599627370496 * w := by ring
      rw [e3] at r2
      omega
    · have hS : S + E = 52 := by omega
      have h8 : h * 2 ^ E * 2 ^ S ≤ w * 2 ^ S := Nat.mul_le_mul_right _ k1
      have e4 : h * 2 ^ E * 2 ^ S = h * 2 ^ 52 := by
        rw [Nat.mul_assoc, ← pow_add, Nat.add_comm, hS]
      rw [e4] at h8
      have h9 : h * (2 * 2 ^ 52) ≤ h * (2 * m + 1) := by
        have e5 : h * (2 * 2 ^ 52) = 2 * (h * 2 ^ 52) := by ring
        have e6 : h * (2 * m + 1) = 2 * (h * m) + h := by ring
        rw [e5, e6]
        omega
      have h10 := Nat.le_of_mul_le_mul_left h9 hh
      have hm : 2 ^ 52 ≤ m := by omega
      have hSlt : S ≤ 51 := by omega
      have h11 : 2 ^ S ≤ 2 ^ 51 := Nat.pow_le_pow_right (by norm_num) hSlt
      have h12 : 5854679515581645 * 2 ^ S ≤ 5854679515581645 * 2 ^ 51 :=
        Nat.mul_le_mul_left _ h11
      have h13 : 2 ^ 52 * 4503599627370496 ≤ m * 4503599627370496 :=
        Nat.mul_le_mul_right _ hm
      have h14 : 5854679515581645 * 2 ^ 51 < 2 ^ 52 * 4503599627370496 := by norm_num
      omega

/-- For image dimensions below `2^32` the comparison of line 89 on the rounded
quotient decides `w / h < 9/10` exactly. -/
theorem jsDiv_lt_0_9_iff (w h : Nat) (hw : 0 < w) (hh : 0 < h) (hw32 : w < 2 ^ 32)
    (hh32 : h < 2 ^ 32) : (jsDiv w h).lt lit_0_9 = true ↔ 10 * w < 9 * h := by
  obtain ⟨S, E, K, hS, hE, hK, hSE, hEK, hE32, hval⟩ := jsDiv_eq w h hw hh hw32
  obtain ⟨k1, k2⟩ := floorLog2_spec w h hw hh
  rw [hE, hK] at k1 k2
  obtain ⟨r1, r2⟩ := roundHalfEven_spec (w * 2 ^ S) h hh
  generalize roundHalfEven (w * 2 ^ S) h = m at r1 r2 hval
  have hlit : lit_0_9 = .fin (((8106479329266893 : Nat) : ℚ) / ((9007199254740992 : Nat) : ℚ)) := by
    unfold lit_0_9
    norm_num
  rw [hval, hlit, fin_lt_fin_iff m S _ _ (by norm_num)]
  constructor
  · -- the double is below the literal, so the quotient is below 9/10
    intro hlt
    by_contra hge
    have hge1 : 9 * h ≤ 10 * w := by omega
    have hK1 : K ≤ 1 := by
      by_contra hne
      have hE0 : E = 0 := by omega
      subst hE0
      have h2 : 2 ^ 2 ≤ 2 ^ K := Nat.pow_le_pow_right (by norm_num) (by omega)
      have h3 : w * 2 ^ 2 ≤ w * 2 ^ K := Nat.mul_le_mul_left _ h2
      omega
    by_cases hK0 : K = 0
    · subst hK0
      simp only [pow_zero, mul_one] at k1 k2
      have hS : S + E = 52 := by omega
      have h8 : h * 2 ^ E * 2 ^ S ≤ w * 2 ^ S := Nat.mul_le_mul_right _ k1
      have e4 : h * 2 ^ E * 2 ^ S = h * 2 ^ 52 := by
        rw [Nat.mul_assoc, ← pow_add, Nat.add_comm, hS]
      rw [e4] at h8
      have h9 : h * (2 * 2 ^ 52) ≤ h * (2 * m + 1) := by
        have e5 : h * (2 * 2 ^ 52) = 2 * (h * 2 ^ 52) := by ring
        have e6 : h * (2 * m + 1) = 2 * (h * m) + h := by ring
        rw [e5, e6]
        omega
      have h10 := Nat.le_of_mul_le_mul_left h9 hh
      have hm : 2 ^ 52 ≤ m := by omega
      have hSlt : S ≤ 52 := by omega
      have h11 : 2 ^ S ≤ 2 ^ 52 := Nat.pow_le_pow_right (by norm_num) hSlt
      have h12 : 8106479329266893 * 2 ^ S ≤ 8106479329266893 * 2 ^ 52 :=
        Nat.mul_le_mul_left _ h11
      have h13 : 2 ^ 52 * 9007199254740992 ≤ m * 9007199254740992 :=
        Nat.mul_le_mul_right _ hm
      have h14 : 8106479329266893 * 2 ^ 52 < 2 ^ 52 * 9007199254740992 := by norm_num
      omega
    · have hK1a : K = 1 := by omega
      subst hK1a
      have hE0 : E = 0 := by omega
      subst hE0
      have hS53 : S = 53 := by omega
      subst hS53
      have hm : m ≤ 8106479329266892 := by omega
      have h7 : h * m ≤ h * 8106479329266892 := Nat.mul_le_mul_left _ hm
      have e3 : w * 2 ^ 53 = 9007199254740992 * w := by ring
      rw [e3] at r2
      omega
  · -- the quotient is below 9/10, so the double is below the literal
    intro hlt
    have hE0 : E = 0 := by
      by_contra hne
      have hK0 : K = 0 := by omega
      subst hK0
      have h2 : 2 ^ 0 ≤ 2 ^ E := Nat.pow_le_pow_right (by norm_num) (by omega)
      have h3 : h * 2 ^ 0 ≤ h * 2 ^ E := Nat.mul_le_mul_left _ h2
      simp only [pow_zero, mul_one] at k1 h3
      omega
    subst hE0
    have hKpos : 0 < K := by
      by_contra hz
      have hK0 : K = 0 := by omega
      subst hK0
      simp only [pow_zero, mul_one] at k1
      omega
    obtain ⟨K1, rfl⟩ : ∃ K1, K = K1 + 1 := ⟨K - 1, by omega⟩
    have hSK : S = 53 + K1 := by omega
    subst hSK
    rw [pow_add] at r1 ⊢
    have hQpos : 0 < 2 ^ K1 := Nat.pow_pos (by norm_num)
    generalize 2 ^ K1 = Q at r1 hQpos ⊢
    by_contra hnot
    have hm : 8106479329266893 * Q ≤ m := by
      have e0 : 8106479329266893 * (2 ^ 53 * Q) = (8106479329266893 * Q) * 9007199254740992 := by
        ring
      rw [e0] at hnot
      have := Nat.le_of_not_lt hnot
      exact Nat.le_of_mul_le_mul_right this (by norm_num)
    have h7 : h * (8106479329266893 * Q) ≤ h * m := Nat.mul_le_mul_left _ hm
    have h8 : (10 * w + 1) * Q ≤ 9 * h * Q := Nat.mul_le_mul_right _ (by omega)
    have e1 : h * (8106479329266893 * Q) = 8106479329266893 * (h * Q) := by ring
    have e2 : (10 * w + 1) * Q = 10 * (w * Q) + Q := by ring
    have e3 : 9 * h * Q = 9 * (h * Q) := by ring
    have e4 : w * (2 ^ 53 * Q) = 9007199254740992 * (w * Q) := by ring
    rw [e1] at h7
    rw [e2, e3] at h8
    rw [e4] at r1
    omega

/-- For image dimensions below `2^32` the label chosen by lines 81-93 is the
one the exact quotient `w / h` gets with the thresholds 13/10 and 9/10; an
image without a height gets `landscape` when it has a width (`Infinity`) and
`square` when it has none (`NaN`). -/
theorem orientationClass_jsDiv (w h : Nat) (hw32 : w < 2 ^ 32) (hh32 : h < 2 ^ 32) :
    orientationClass (jsDiv w h) =
      if 13 * h < 10 * w then "landscape"
      else if 10 * w < 9 * h then "portrait"
      else "square" := by
  by_cases hh : h = 0
  · subst hh
    by_cases hw : w = 0
    · subst hw
      rfl
    · have e : jsDiv w 0 = .posInf := by
        unfold jsDiv
        rw [if_pos rfl, if_neg hw]
      rw [e, if_pos (by omega)]
      rfl
  · by_cases hw : w = 0
    · subst hw
      have e : jsDiv 0 h = .fin 0 := by
        unfold jsDiv
        rw [if_neg hh, if_pos rfl]
      rw [e, if_neg (by omega), if_pos (by omega)]
      unfold orientationClass
      have g1 : (JSNumber.fin 0).gt lit_1_3 = false := by
        simp only [JSNumber.gt, lit_1_3, decide_eq_false_iff_not, not_lt]
        norm_num
      have g2 : (JSNumber.fin 0).lt lit_0_9 = true := by
        simp only [JSNumber.lt, JSNumber.gt, lit_0_9, decide_eq_true_eq]
        norm_num
      rw [g1, g2]
      rfl
    · have h1 := jsDiv_gt_1_3_iff w h (by omega) (by omega) hw32 hh32
      have h2 := jsDiv_lt_0_9_iff w h (by omega) (by omega) hw32 hh32
      unfold orientationClass
      by_cases c1 : 13 * h < 10 * w
      · rw [if_pos c1, if_pos (h1.mpr c1)]
      · have g1 : (jsDiv w h).gt lit_1_3 ≠ true := fun hg => c1 (h1.mp hg)
        rw [if_neg c1, if_neg g1]
        by_cases c2 : 10 * w < 9 * h
        · rw [if_pos c2, if_pos (h2.mpr c2)]
        · have g2 : (jsDiv w h).lt lit_0_9 ≠ true := fun hg => c2 (h2.mp hg)
          rw [if_neg c2, if_neg g2]

/-! ## Lemmas on the document tree -/

theorem Element.get?_nil (e : Element) : e.get? [] = some e := by
  cases e; rfl

theorem Element.get?_cons (pr : ElementProps) (cs : List Element) (i : Nat) (p : NodeRef) :
    (Element.mk pr cs).get? (i :: p) = (cs.get? i).bind (fun e => e.get? p) := by
  simp only [Element.get?]
  cases cs.get? i <;> rfl

theorem Element.update_nil (u : ElementProps → ElementProps) (pr : ElementProps)
    (cs : List Element) : Element.update u (.mk pr cs) [] = .mk (u pr) cs := rfl

theorem Element.update_cons (u : ElementProps → ElementProps) (pr : ElementProps)
    (cs : List Element) (i : Nat) (p : NodeRef) :
    Element.update u (.mk pr cs) (i :: p) =
      .mk pr (match cs.get? i with
        | some child => cs.set i (Element.update u child p)
        | none => cs) := by
  simp only [Element.update]
  cases cs.get? i <;> rfl

theorem set_get?_self {α : Type} (cs : List α) (i : Nat) (x y : α)
    (h : cs.get? i = some y) : (cs.set i x).get? i = some x := by
  have hi : i < cs.length := by
    by_contra hn
    rw [List.get?_eq_none.mpr (by omega)] at h
    cases h
  simp [List.getElem?_set, hi]

theorem get?_set_other {α : Type} (cs : List α) (i j : Nat) (x : α) (h : j ≠ i) :
    (cs.set i x).get? j = cs.get? j := by
  simp [List.getElem?_set, Ne.symm h]

/-- The element at the updated place carries the new properties. -/
theorem Element.props_update_same (u : ElementProps → ElementProps) :
    ∀ (p : NodeRef) (doc e : Element), doc.get? p = some e →
      ∃ e1, (doc.update u p).get? p = some e1 ∧ e1.props = u e.props := by
  intro p
  induction p with
  | nil =>
    intro doc e h
    cases doc with
    | mk pr cs =>
      rw [Element.get?_nil] at h
      cases h
      exact ⟨_, Element.get?_nil _, rfl⟩
  | cons i p ih =>
    intro doc e h
    cases doc with
    | mk pr cs =>
      rw [Element.get?_cons] at h
      rw [Element.update_cons, Element.get?_cons]
      cases hc : cs.get? i with
      | none => rw [hc] at h; cases h
      | some child =>
        rw [hc] at h
        simp only [Option.bind] at h
        obtain ⟨e1, h1, h2⟩ := ih child e h
        refine ⟨e1, ?_, h2⟩
        simp only []
        rw [set_get?_self cs i _ child hc]
        exact h1

/-- Away from the updated place every element has the properties it had. -/
theorem Element.props_update_other (u : ElementProps → ElementProps) :
    ∀ (q p : NodeRef) (doc : Element), q ≠ p →
      ((doc.update u p).get? q).map Element.props = (doc.get? q).map Element.props := by
  intro q
  induction q with
  | nil =>
    intro p doc hne
    cases doc with
    | mk pr cs =>
      cases p with
      | nil => exact absurd rfl hne
      | cons i p =>
        rw [Element.update_cons, Element.get?_nil, Element.get?_nil]
        rfl
  | cons j q ih =>
    intro p doc hne
    cases doc with
    | mk pr cs =>
      cases p with
      | nil =>
        rw [Element.update_nil, Element.get?_cons, Element.get?_cons]
      | cons i p =>
        rw [Element.update_cons, Element.get?_cons, Element.get?_cons]
        cases hc : cs.get? i with
        | none => rfl
        | some child =>
          simp only []
          by_cases hji : j = i
          · subst hji
            rw [set_get?_self cs j _ child hc, hc]
            simp only [Option.bind]
            exact ih p child (fun h => hne (by rw [h]))
          · rw [get?_set_other cs i j _ hji]

/-- A projection of the properties that the update does not change reads the
same at every element, the updated one included. -/
theorem Element.proj_update {α : Type} (g : ElementProps → α) (u : ElementProps → ElementProps)
    (hg : ∀ pr, g (u pr) = g pr) :
    ∀ (q p : NodeRef) (doc : Element),
      ((doc.update u p).get? q).map (fun e => g e.props)
        = (doc.get? q).map (fun e => g e.props) := by
  intro q
  induction q with
  | nil =>
    intro p doc
    cases doc with
    | mk pr cs =>
      cases p with
      | nil =>
        rw [Element.update_nil, Element.get?_nil, Element.get?_nil]
        simp only [Option.map, Element.props, hg]
      | cons i p =>
        rw [Element.update_cons, Element.get?_nil, Element.get?_nil]
        rfl
  | cons j q ih =>
    intro p doc
    cases doc with
    | mk pr cs =>
      cases p with
      | nil =>
        rw [Element.update_nil, Element.get?_cons, Element.get?_cons]
      | cons i p =>
        rw [Element.update_cons, Element.get?_cons, Element.get?_cons]
        cases hc : cs.get? i with
        | none => rfl
        | some child =>
          simp only []
          by_cases hji : j = i
          · subst hji
            rw [set_get?_self cs j _ child hc, hc]
            simp only [Option.bind]
            exact ih p child
          · rw [get?_set_other cs i j _ hji]

theorem Element.closest_nil (cls : String) (e : Element) :
    e.closest cls [] = if cls ∈ e.classList then some [] else none := by
  cases e; rfl

theorem Element.closest_cons (cls : String) (pr : ElementProps) (cs : List Element)
    (i : Nat) (p : NodeRef) :
    (Element.mk pr cs).closest cls (i :: p) =
      match cs.get? i with
      | none => none
      | some child =>
        match child.closest cls p with
        | some q => some (i :: q)
        | none => if cls ∈ pr.classList then some [] else none := by
  simp only [Element.closest]

/-- An update that neither adds nor removes the class `cls` leaves every result
of `closest` for `cls` as it was. -/
theorem Element.closest_update (cls : String) (u : ElementProps → ElementProps)
    (hu : ∀ pr, cls ∈ (u pr).classList ↔ cls ∈ pr.classList) :
    ∀ (q p : NodeRef) (doc : Element),
      (doc.update u p).closest cls q = doc.closest cls q := by
  intro q
  induction q with
  | nil =>
    intro p doc
    cases doc with
    | mk pr cs =>
      cases p with
      | nil =>
        rw [Element.update_nil, Element.closest_nil, Element.closest_nil]
        simp only [Element.classList, Element.props, hu]
      | cons i p =>
        rw [Element.update_cons, Element.closest_nil, Element.closest_nil]
        rfl
  | cons j q ih =>
    intro p doc
    cases doc with
    | mk pr cs =>
      cases p with
      | nil =>
        rw [Element.update_nil, Element.closest_cons, Element.closest_cons]
        simp only [hu]
      | cons i p =>
        rw [Element.update_cons, Element.closest_cons, Element.closest_cons]
        cases hc : cs.get? i with
        | none => rfl
        | some child =>
          simp only []
          by_cases hji : j = i
          · subst hji
            rw [set_get?_self cs j _ child hc, hc]
            simp only []
            rw [ih p child]
          · rw [get?_set_other cs i j _ hji]

/-- What `closest` returns is an element of the document that carries the class. -/
theorem Element.closest_some (cls : String) :
    ∀ (q : NodeRef) (doc : Element) (c : NodeRef), doc.closest cls q = some c →
      ∃ e, doc.get? c = some e ∧ cls ∈ e.classList := by
  intro q
  induction q with
  | nil =>
    intro doc c h
    rw [Element.closest_nil] at h
    by_cases hm : cls ∈ doc.classList
    · rw [if_pos hm] at h
      cases h
      exact ⟨doc, Element.get?_nil doc, hm⟩
    · rw [if_neg hm] at h
      cases h
  | cons j q ih =>
    intro doc c h
    cases doc with
    | mk pr cs =>
      rw [Element.closest_cons] at h
      cases hc : cs.get? j with
      | none => rw [hc] at h; cases h
      | some child =>
        rw [hc] at h
        simp only [] at h
        cases hq : child.closest cls q with
        | some r =>
          rw [hq] at h
          simp only [] at h
          cases h
          obtain ⟨e, he, hm⟩ := ih child r hq
          refine ⟨e, ?_, hm⟩
          rw [Element.get?_cons, hc]
          exact he
        | none =>
          rw [hq] at h
          simp only [] at h
          by_cases hm : cls ∈ pr.classList
          · rw [if_pos hm] at h
            cases h
            exact ⟨_, Element.get?_nil _, hm⟩
          · rw [if_neg hm] at h
            cases h

/-- The container `closest` returns is an inclusive ancestor of the element. -/
theorem Element.closest_prefix (cls : String) :
    ∀ (q : NodeRef) (doc : Element) (c : NodeRef), doc.closest cls q = some c → c <+: q := by
  intro q
  induction q with
  | nil =>
    intro doc c h
    rw [Element.closest_nil] at h
    by_cases hm : cls ∈ doc.classList
    · rw [if_pos hm] at h
      cases h
      exact List.prefix_refl _
    · rw [if_neg hm] at h
      cases h
  | cons j q ih =>
    intro doc c h
    cases doc with
    | mk pr cs =>
      rw [Element.closest_cons] at h
      cases hc : cs.get? j with
      | none => rw [hc] at h; cases h
      | some child =>
        rw [hc] at h
        simp only [] at h
        cases hq : child.closest cls q with
        | some r =>
          rw [hq] at h
          simp only [] at h
          cases h
          exact List.cons_prefix_cons.mpr ⟨rfl, ih child r hq⟩
        | none =>
          rw [hq] at h
          simp only [] at h
          by_cases hm : cls ∈ pr.classList
          · rw [if_pos hm] at h
            cases h
            exact List.nil_prefix
          · rw [if_neg hm] at h
            cases h

/-- When no inclusive ancestor of `q` carries the class, `closest` finds nothing. -/
theorem Element.closest_eq_none (cls : String) :
    ∀ (q : NodeRef) (doc : Element),
      (∀ c e, c <+: q → doc.get? c = some e → cls ∉ e.classList) →
      doc.closest cls q = none := by
  intro q
  induction q with
  | nil =>
    intro doc h
    rw [Element.closest_nil, if_neg (h [] doc (List.prefix_refl _) (Element.get?_nil doc))]
  | cons j q ih =>
    intro doc h
    cases doc with
    | mk pr cs =>
      rw [Element.closest_cons]
      cases hc : cs.get? j with
      | none => rfl
      | some child =>
        simp only []
        have hchild : child.closest cls q = none := by
          apply ih
          intro c e hpre hget
          apply h (j :: c) e
          · exact List.cons_prefix_cons.mpr ⟨rfl, hpre⟩
          · rw [Element.get?_cons, hc]
            exact hget
        rw [hchild]
        simp only []
        have hroot : cls ∉ pr.classList := h [] _ List.nil_prefix (Element.get?_nil _)
        rw [if_neg hroot]

/-- For an element of the document, `closest` finds nothing only when no
inclusive ancestor carries the class. -/
theorem Element.closest_none_valid (cls : String) :
    ∀ (q : NodeRef) (doc e : Element), doc.get? q = some e → doc.closest cls q = none →
      ∀ c e1, c <+: q → doc.get? c = some e1 → cls ∉ e1.classList := by
  intro q
  induction q with
  | nil =>
    intro doc e _ hnone c e1 hpre hget
    rw [List.prefix_nil] at hpre
    subst hpre
    rw [Element.get?_nil] at hget
    cases hget
    rw [Element.closest_nil] at hnone
    intro hm
    rw [if_pos hm] at hnone
    cases hnone
  | cons j q ih =>
    intro doc e hq hnone c e1 hpre hget
    cases doc with
    | mk pr cs =>
      rw [Element.get?_cons] at hq
      rw [Element.closest_cons] at hnone
      cases hc : cs.get? j with
      | none => rw [hc] at hq; cases hq
      | some child =>
        rw [hc] at hq hnone
        simp only [Option.bind] at hq
        simp only [] at hnone
        cases hcl : child.closest cls q with
        | some r => rw [hcl] at hnone; cases hnone
        | none =>
          rw [hcl] at hnone
          simp only [] at hnone
          rcases List.prefix_cons_iff.mp hpre with hnil | ⟨t, rfl, ht⟩
          · subst hnil
            rw [Element.get?_nil] at hget
            cases hget
            intro hm
            have hm1 : cls ∈ pr.classList := hm
            rw [if_pos hm1] at hnone
            cases hnone
          · rw [Element.get?_cons, hc] at hget
            exact ih child e hq hcl t e1 ht hget

/-- For an element of the document, what `closest` returns is the nearest
inclusive ancestor carrying the class: no element strictly between it and the
starting element carries the class. -/
theorem Element.closest_nearest (cls : String) :
    ∀ (q : NodeRef) (doc e : Element) (c : NodeRef), doc.get? q = some e →
      doc.closest cls q = some c →
      ∀ c1 e1, c <+: c1 → c1 <+: q → c1 ≠ c → doc.get? c1 = some e1 →
        cls ∉ e1.classList := by
  intro q
  induction q with
  | nil =>
    intro doc e c _ hcl c1 e1 hcc1 hc1q hne _
    rw [List.prefix_nil] at hc1q
    subst hc1q
    rw [List.prefix_nil] at hcc1
    exact absurd hcc1.symm hne
  | cons j q ih =>
    intro doc e c hq hcl c1 e1 hcc1 hc1q hne hget
    cases doc with
    | mk pr cs =>
      rw [Element.get?_cons] at hq
      rw [Element.closest_cons] at hcl
      cases hc : cs.get? j with
      | none => rw [hc] at hq; cases hq
      | some child =>
        rw [hc] at hq hcl
        simp only [Option.bind] at hq
        simp only [] at hcl
        rcases List.prefix_cons_iff.mp hc1q with hnil | ⟨t, rfl, ht⟩
        · subst hnil
          rw [List.prefix_nil] at hcc1
          exact absurd hcc1.symm hne
        · rw [Element.get?_cons, hc] at hget
          cases hr : child.closest cls q with
          | some r =>
            rw [hr] at hcl
            simp only [] at hcl
            cases hcl
            have hrt : r <+: t := (List.cons_prefix_cons.mp hcc1).2
            exact ih child e r hq hr t e1 hrt ht (fun h => hne (by rw [h])) hget
          | none =>
            exact Element.closest_none_valid cls q child e hq hr t e1 ht hget

/-! ## Lemmas on the orientation labels -/

theorem orientationClass_cases (r : JSNumber) :
    orientationClass r = "landscape" ∨ orientationClass r = "portrait"
      ∨ orientationClass r = "square" := by
  unfold orientationClass
  split
  · exact Or.inl rfl
  · split
    · exact Or.inr (Or.inl rfl)
    · exact Or.inr (Or.inr rfl)

theorem relabel_eq (r : JSNumber) (classList : List String) :
    relabel r classList =
      classList.filter (fun t => decide (t ∉ ["portrait", "landscape", "square"]))
        ++ [orientationClass r] := by
  unfold relabel DOMTokenList.add DOMTokenList.remove
  rw [if_neg]
  intro hmem
  have h := (List.mem_filter.mp hmem).2
  rcases orientationClass_cases r with h1 | h1 | h1 <;> rw [h1] at h <;> simp at h

/-- After relabelling, the class list holds one orientation label: the one of the ratio. -/
theorem labelsOf_relabel (r : JSNumber) (classList : List String) :
    labelsOf (relabel r classList) = [orientationClass r] := by
  rw [relabel_eq]
  unfold labelsOf orientationLabels
  rw [List.filter_append, List.filter_filter]
  have h1 : List.filter (fun t => decide (t ∈ ["landscape", "portrait", "square"])
      && decide (t ∉ ["portrait", "landscape", "square"])) classList = [] := by
    rw [List.filter_eq_nil_iff]
    intro t _
    simp only [List.mem_cons, List.mem_singleton, List.not_mem_nil, or_false, Bool.and_eq_true,
      decide_eq_true_eq, not_and, not_not]
    tauto
  rw [h1]
  rcases orientationClass_cases r with h2 | h2 | h2 <;> rw [h2] <;> decide

/-- Relabelling touches no class other than the three orientation labels. -/
theorem mem_relabel (r : JSNumber) (classList : List String) (t : String)
    (ht : t ∉ orientationLabels) : t ∈ relabel r classList ↔ t ∈ classList := by
  rw [relabel_eq]
  unfold orientationLabels at ht
  simp only [List.mem_cons, List.mem_singleton, List.not_mem_nil, or_false, not_or] at ht
  obtain ⟨h1, h2, h3⟩ := ht
  have hne : t ≠ orientationClass r := by
    rcases orientationClass_cases r with h | h | h <;> rw [h] <;> assumption
  simp only [List.mem_append, List.mem_filter, List.mem_cons, List.mem_singleton,
    List.not_mem_nil, or_false, decide_eq_true_eq, not_or]
  constructor
  · rintro (h | h)
    · exact h.1
    · exact absurd h hne
  · intro h
    exact Or.inl ⟨h, h2, h1, h3⟩

theorem classListAt_of_get? (document : Element) (ref : NodeRef) (e : Element)
    (h : document.get? ref = some e) : classListAt document ref = e.classList := by
  unfold classListAt
  rw [h]

theorem classListAt_eq_of_map (d1 d2 : Element) (q1 q2 : NodeRef)
    (h : (d1.get? q1).map (fun e => e.props.classList)
      = (d2.get? q2).map (fun e => e.props.classList)) :
    classListAt d1 q1 = classListAt d2 q2 := by
  unfold classListAt Element.classList
  cases h1 : d1.get? q1 <;> cases h2 : d2.get? q2 <;> rw [h1, h2] at h <;> simp_all

/-- Away from the updated place every class list is what it was. -/
theorem classListAt_update_other (u : ElementProps → ElementProps) (doc : Element)
    (p q : NodeRef) (h : q ≠ p) : classListAt (doc.update u p) q = classListAt doc q := by
  apply classListAt_eq_of_map
  have h1 := Element.props_update_other u q p doc h
  cases hg : (doc.update u p).get? q <;> cases hd : doc.get? q <;> rw [hg, hd] at h1
    <;> simp_all

/-- An update that keeps class lists changes no class list. -/
theorem classListAt_update_keep (u : ElementProps → ElementProps)
    (hu : ∀ pr, (u pr).classList = pr.classList) (doc : Element) (p q : NodeRef) :
    classListAt (doc.update u p) q = classListAt doc q := by
  apply classListAt_eq_of_map
  exact Element.proj_update (fun pr => pr.classList) u hu q p doc

/-- With an image and its container at hand, `detectImageOrientation` is the
relabelling of the class list of the container. -/
theorem detectImageOrientation_eq (document : Element) (img c : NodeRef) (el : Element)
    (hget : document.get? img = some el)
    (hc : document.closest "post-image-container" img = some c) :
    detectImageOrientation document img =
      document.updateClassList (relabel (jsDiv el.naturalWidth el.naturalHeight)) c := by
  unfold detectImageOrientation
  rw [hget, hc]

/-- The class list of the container after `detectImageOrientation`. -/
theorem classListAt_detect_container (document : Element) (img c : NodeRef) (el : Element)
    (hget : document.get? img = some el)
    (hc : document.closest "post-image-container" img = some c) :
    classListAt (detectImageOrientation document img) c =
      relabel (jsDiv el.naturalWidth el.naturalHeight) (classListAt document c) := by
  rw [detectImageOrientation_eq document img c el hget hc]
  generalize jsDiv el.naturalWidth el.naturalHeight = r
  obtain ⟨ec, hec, _⟩ := Element.closest_some _ img document c hc
  obtain ⟨e1, h1, h2⟩ := Element.props_update_same
    (fun pr => { pr with classList := relabel r pr.classList }) c document ec hec
  unfold Element.updateClassList
  rw [classListAt_of_get? _ _ _ h1, classListAt_of_get? _ _ _ hec]
  unfold Element.classList
  rw [h2]

/-- The class lists of all elements but the container after `detectImageOrientation`. -/
theorem classListAt_detect_other (document : Element) (img q : NodeRef)
    (hq : document.closest "post-image-container" img ≠ some q) :
    classListAt (detectImageOrientation document img) q = classListAt document q := by
  unfold detectImageOrientation
  cases hget : document.get? img with
  | none => rfl
  | some el =>
    cases hc : document.closest "post-image-container" img with
    | none => rfl
    | some c =>
      simp only []
      apply classListAt_update_other
      intro h
      exact hq (by rw [hc, h])

/-- The class `post-image-container` is not affected by relabelling, so
`closest` answers after `detectImageOrientation` as it did before. -/
theorem closest_detect (document : Element) (img q : NodeRef) :
    (detectImageOrientation document img).closest "post-image-container" q =
      document.closest "post-image-container" q := by
  unfold detectImageOrientation
  cases hget : document.get? img with
  | none => rfl
  | some el =>
    cases hc : document.closest "post-image-container" img with
    | none => rfl
    | some c =>
      simp only []
      apply Element.closest_update
      intro pr
      apply mem_relabel
      decide

/-- Properties other than the class list are not affected by
`detectImageOrientation`. -/
theorem proj_detect {α : Type} (g : ElementProps → α)
    (hg : ∀ pr cl, g { pr with classList := cl } = g pr)
    (document : Element) (img q : NodeRef) :
    ((detectImageOrientation document img).get? q).map (fun e => g e.props)
      = (document.get? q).map (fun e => g e.props) := by
  unfold detectImageOrientation
  cases hget : document.get? img with
  | none => rfl
  | some el =>
    cases hc : document.closest "post-image-container" img with
    | none => rfl
    | some c =>
      simp only []
      exact Element.proj_update g _ (fun pr => hg pr _) q c document

/-- The division of line 81 on some dimensions, against the doubles a browser
computes: `13/10` is the literal `1.3`, `9/10` is the literal `0.9`, `1/3` is
`0x3FD5555555555555`, `1600/900` is `0x3FFC71C71C71C71C`, `1000/1000` is 1. -/
theorem jsDiv_examples :
    jsDiv 13 10 = lit_1_3 ∧ jsDiv 9 10 = lit_0_9
      ∧ divMantissa 1 3 = (6004799503160661, -54)
      ∧ divMantissa 1600 900 = (8006399337547548, -52)
      ∧ divMantissa 1000 1000 = (4503599627370496, -52)
      ∧ divMantissa 4294967295 1 = (9007199252643840, -21)
      ∧ divMantissa 1 4294967295 = (4503599628419072, -84) := by
  have h1 : divMantissa 13 10 = (5854679515581645, -52) := by decide
  have h2 : divMantissa 9 10 = (8106479329266893, -53) := by decide
  refine ⟨?_, ?_, by decide, by decide, by decide, by decide, by decide⟩
  · simp only [jsDiv, h1, lit_1_3]
    norm_num
  · simp only [jsDiv, h2, lit_0_9]
    norm_num

/-! ## Image orientation: the claims -/

theorem orientationClass_landscape_iff (r : JSNumber) :
    orientationClass r = "landscape" ↔ r.gt lit_1_3 = true := by
  unfold orientationClass
  cases h : r.gt lit_1_3
  · cases h2 : r.lt lit_0_9 <;> simp
  · simp

theorem lt_0_9_not_gt_1_3 (r : JSNumber) (h : r.lt lit_0_9 = true) : r.gt lit_1_3 = false := by
  cases r with
  | nan => rfl
  | posInf => simp [JSNumber.lt, JSNumber.gt, lit_0_9] at h
  | negInf => rfl
  | fin q =>
    simp only [JSNumber.lt, JSNumber.gt, lit_0_9, lit_1_3, decide_eq_true_eq,
      decide_eq_false_iff_not, not_lt] at h ⊢
    have : (8106479329266893 / 9007199254740992 : ℚ) ≤ 5854679515581645 / 4503599627370496 := by
      norm_num
    linarith

theorem orientationClass_portrait_iff (r : JSNumber) :
    orientationClass r = "portrait" ↔ r.lt lit_0_9 = true := by
  unfold orientationClass
  cases h2 : r.lt lit_0_9
  · cases h : r.gt lit_1_3 <;> simp
  · rw [lt_0_9_not_gt_1_3 r h2]
    simp

theorem orientationClass_square_iff (r : JSNumber) :
    orientationClass r = "square" ↔
      (r = .nan ∨ (lit_0_9.le r = true ∧ r.le lit_1_3 = true)) := by
  unfold orientationClass
  cases r with
  | nan => simp [JSNumber.gt, JSNumber.lt]
  | posInf => simp [JSNumber.gt, JSNumber.lt, JSNumber.le, lit_1_3, lit_0_9]
  | negInf => simp [JSNumber.gt, JSNumber.lt, JSNumber.le, lit_1_3, lit_0_9]
  | fin q =>
    simp only [JSNumber.gt, JSNumber.lt, JSNumber.le, lit_1_3, lit_0_9, decide_eq_true_eq,
      Bool.not_eq_true', decide_eq_false_iff_not, not_lt]
    by_cases h1 : (5854679515581645 / 4503599627370496 : ℚ) < q
    · rw [if_pos h1]
      constructor
      · intro h
        exact absurd h (by decide)
      · rintro (h | ⟨_, h⟩)
        · cases h
        · exact absurd h1 (not_lt.mpr h)
    · rw [if_neg h1]
      by_cases h2 : q < (8106479329266893 / 9007199254740992 : ℚ)
      · rw [if_pos h2]
        constructor
        · intro h
          exact absurd h (by decide)
        · rintro (h | ⟨h, _⟩)
          · cases h
          · exact absurd h2 (not_lt.mpr h)
      · rw [if_neg h2]
        simp only [true_iff]
        exact Or.inr ⟨not_lt.mp h2, not_lt.mp h1⟩

/-- Claim C1: whatever the class list of the container, `detectImageOrientation`
leaves on it one orientation label, the one of the aspect ratio; and for every
aspect ratio `r` the label is `landscape` exactly when `r > 1.3`, `portrait`
exactly when `r < 0.9`, and `square` exactly when `0.9 <= r <= 1.3` or `r` is
`NaN`.  In particular the ratios 1.3 and 0.9 (as literals, and as the quotients
13/10 and 9/10 of image dimensions) give `square`. -/
theorem C1_orientation_exactly_one (document : Element) (img c : NodeRef) (el : Element)
    (hget : document.get? img = some el)
    (hc : document.closest "post-image-container" img = some c) (r : JSNumber)
    (classList : List String) :
    labelsOf (classListAt (detectImageOrientation document img) c)
        = [orientationClass (jsDiv el.naturalWidth el.naturalHeight)]
      ∧ labelsOf (relabel r classList) = [orientationClass r]
      ∧ (orientationClass r = "landscape" ↔ r.gt lit_1_3 = true)
      ∧ (orientationClass r = "portrait" ↔ r.lt lit_0_9 = true)
      ∧ (orientationClass r = "square" ↔
          (r = .nan ∨ (lit_0_9.le r = true ∧ r.le lit_1_3 = true)))
      ∧ orientationClass lit_1_3 = "square" ∧ orientationClass lit_0_9 = "square"
      ∧ orientationClass (jsDiv 13 10) = "square" ∧ orientationClass (jsDiv 9 10) = "square" := by
  refine ⟨?_, labelsOf_relabel r classList, orientationClass_landscape_iff r,
    orientationClass_portrait_iff r, orientationClass_square_iff r, ?_, ?_, ?_, ?_⟩
  · rw [classListAt_detect_container document img c el hget hc]
    exact labelsOf_relabel _ _
  all_goals decide!

/-- An image of 13 by 10 in a container that carries all three labels: afterwards
the container carries `square` only. -/
theorem C1_orientation_exactly_one_witness :
    labelsOf (classListAt (detectImageOrientation
        (.div [] [.div ["landscape", "post-image-container", "portrait", "square"]
          [.img ["post-image"] 13 10 true]]) [0, 0]) [0]) = ["square"] := by
  have h := (C1_orientation_exactly_one
    (.div [] [.div ["landscape", "post-image-container", "portrait", "square"]
      [.img ["post-image"] 13 10 true]]) [0, 0] [0]
    (.img ["post-image"] 13 10 true) rfl (by decide) .nan []).1
  rw [h]
  decide!

/-- Claim C2: when two images have the same container, classifying the first and
then the second leaves on the container the relabelling for the second ratio of
the relabelling for the first, which holds one orientation label: the one of the
second ratio.  The same holds for any two ratios and any class list. -/
theorem C2_reclassify_latest (document : Element) (img1 img2 c : NodeRef) (e1 e2 : Element)
    (h1 : document.get? img1 = some e1) (h2 : document.get? img2 = some e2)
    (hc1 : document.closest "post-image-container" img1 = some c)
    (hc2 : document.closest "post-image-container" img2 = some c)
    (r1 r2 : JSNumber) (classList : List String) :
    classListAt (detectImageOrientation (detectImageOrientation document img1) img2) c
        = relabel (jsDiv e2.naturalWidth e2.naturalHeight)
            (relabel (jsDiv e1.naturalWidth e1.naturalHeight) (classListAt document c))
      ∧ labelsOf (classListAt
          (detectImageOrientation (detectImageOrientation document img1) img2) c)
        = [orientationClass (jsDiv e2.naturalWidth e2.naturalHeight)]
      ∧ labelsOf (relabel r2 (relabel r1 classList)) = [orientationClass r2] := by
  have hdims := proj_detect (fun pr => (pr.naturalWidth, pr.naturalHeight))
    (fun _ _ => rfl) document img1 img2
  rw [h2] at hdims
  cases hg : (detectImageOrientation document img1).get? img2 with
  | none => rw [hg] at hdims; cases hdims
  | some e2a =>
    rw [hg] at hdims
    simp only [Option.map, Option.some.injEq, Prod.mk.injEq] at hdims
    have hcl : (detectImageOrientation document img1).closest "post-image-container" img2
        = some c := by
      rw [closest_detect, hc2]
    have heq := classListAt_detect_container _ img2 c e2a hg hcl
    unfold Element.naturalWidth Element.naturalHeight at heq ⊢
    rw [hdims.1, hdims.2] at heq
    have heq1 := classListAt_detect_container document img1 c e1 h1 hc1
    unfold Element.naturalWidth Element.naturalHeight at heq1
    rw [heq1] at heq
    refine ⟨heq, ?_, labelsOf_relabel _ _⟩
    rw [heq]
    exact labelsOf_relabel _ _

/-- A container labelled `portrait` with a portrait image and a landscape image:
after classifying the portrait one and then the landscape one, `landscape` only. -/
theorem C2_reclassify_latest_witness :
    labelsOf (classListAt (detectImageOrientation (detectImageOrientation
        (.div [] [.div ["post-image-container", "portrait"]
          [.img ["post-image"] 900 1600 true, .img ["post-image"] 1600 900 true]])
        [0, 0]) [0, 1]) [0]) = ["landscape"] := by
  have h := (C2_reclassify_latest
    (.div [] [.div ["post-image-container", "portrait"]
      [.img ["post-image"] 900 1600 true, .img ["post-image"] 1600 900 true]])
    [0, 0] [0, 1] [0] (.img ["post-image"] 900 1600 true)
    (.img ["post-image"] 1600 900 true) rfl rfl (by decide) (by decide) .nan .nan []).2.1
  rw [h]
  decide!

theorem foldl_detect_of_no_container (document : Element) (img : NodeRef)
    (h : detectImageOrientation document img = document) :
    ∀ ls : List NodeRef, (∀ l ∈ ls, l = img) →
      ls.foldl detectImageOrientation document = document := by
  intro ls
  induction ls with
  | nil => intro _; rfl
  | cons l ls ih =>
    intro hl
    rw [List.foldl_cons, hl l (List.mem_cons_self _ _), h]
    exact ih (fun x hx => hl x (List.mem_cons_of_mem _ hx))

theorem detect_of_closest_none (document : Element) (img : NodeRef)
    (h : document.closest "post-image-container" img = none) :
    detectImageOrientation document img = document := by
  unfold detectImageOrientation
  rw [h]
  cases document.get? img <;> rfl

/-- Claim C7: when no inclusive ancestor of the image carries the class
`post-image-container`, `detectImageOrientation` returns the document as it
was, whatever the dimensions of the image; scheduling the image changes
nothing in the document either, and the completion of its load (with any
dimensions) changes no class list. -/
theorem C7_no_container_no_effect (page : Page) (img : NodeRef) (w h : Nat)
    (hno : ∀ c e, c <+: img → page.document.get? c = some e →
      "post-image-container" ∉ e.classList) :
    detectImageOrientation page.document img = page.document
      ∧ (scheduleImage page img).document = page.document
      ∧ (∀ q, classListAt (dispatchLoad page img w h).document q
          = classListAt page.document q) := by
  have hnone := Element.closest_eq_none "post-image-container" img page.document hno
  have hd := detect_of_closest_none page.document img hnone
  refine ⟨hd, ?_, ?_⟩
  · unfold scheduleImage
    cases page.document.get? img with
    | none => rfl
    | some el =>
      simp only []
      cases el.complete
      · rfl
      · simp only [if_true]
        exact hd
  · intro q
    unfold dispatchLoad
    simp only []
    rw [foldl_detect_of_no_container _ img]
    · exact classListAt_update_keep (ElementProps.loaded w h) (fun _ => rfl) _ _ _
    · apply detect_of_closest_none
      rw [Element.closest_update _ (ElementProps.loaded w h) (fun _ => Iff.rfl)]
      exact hnone
    · intro l hl
      exact of_decide_eq_true (List.mem_filter.mp hl).2

/-- A loaded image of 1600 by 900 directly under the document element, with no
container anywhere: nothing changes. -/
theorem C7_no_container_no_effect_witness :
    detectImageOrientation
        (.div ["landscape"] [.img ["post-image", "portrait"] 1600 900 true]) [0]
      = .div ["landscape"] [.img ["post-image", "portrait"] 1600 900 true] := by
  refine (C7_no_container_no_effect
    ⟨⟨none⟩, .div ["landscape"] [.img ["post-image", "portrait"] 1600 900 true],
      ⟨"light"⟩, 0, [], 0⟩ [0] 0 0 ?_).1
  intro c e hpre hget
  rcases List.prefix_cons_iff.mp hpre with hnil | ⟨t, rfl, ht⟩
  · subst hnil
    cases hget
    decide
  · rw [List.prefix_nil] at ht
    subst ht
    cases hget
    decide

/-- Claim C10: `detectImageOrientation` changes the orientation labels of the
container and nothing else: every other class is on the container afterwards
exactly when it was before (so `post-image-container` stays), the class list of
every other element is unchanged, and so are the attributes, the image
properties and the existence of every element. -/
theorem C10_only_container_labels_change (document : Element) (img c : NodeRef) (el : Element)
    (hget : document.get? img = some el)
    (hc : document.closest "post-image-container" img = some c) :
    (∀ t, t ∉ orientationLabels →
        (t ∈ classListAt (detectImageOrientation document img) c ↔ t ∈ classListAt document c))
      ∧ "post-image-container" ∈ classListAt (detectImageOrientation document img) c
      ∧ (∀ q, q ≠ c →
          classListAt (detectImageOrientation document img) q = classListAt document q)
      ∧ (∀ q, ((detectImageOrientation document img).get? q).map
            (fun e => (e.props.attributes, e.props.naturalWidth, e.props.naturalHeight,
              e.props.complete))
          = (document.get? q).map
            (fun e => (e.props.attributes, e.props.naturalWidth, e.props.naturalHeight,
              e.props.complete))) := by
  have hmem : ∀ t, t ∉ orientationLabels →
      (t ∈ classListAt (detectImageOrientation document img) c ↔ t ∈ classListAt document c) := by
    intro t ht
    rw [classListAt_detect_container document img c el hget hc]
    exact mem_relabel _ _ t ht
  refine ⟨hmem, ?_, ?_, ?_⟩
  · rw [hmem _ (by decide)]
    obtain ⟨ec, hec, hm⟩ := Element.closest_some _ img document c hc
    rw [classListAt_of_get? _ _ _ hec]
    exact hm
  · intro q hq
    apply classListAt_detect_other
    rw [hc]
    intro h
    exact hq (Option.some.inj h).symm
  · intro q
    exact proj_detect
      (fun pr => (pr.attributes, pr.naturalWidth, pr.naturalHeight, pr.complete))
      (fun _ _ => rfl) document img q

/-- A landscape image in a container labelled `portrait` that also carries the
class `wide`: afterwards the container keeps `post-image-container` and `wide`,
and the image and the document element keep their own class lists. -/
theorem C10_only_container_labels_change_witness :
    classListAt (detectImageOrientation
        (.div ["square"] [.div ["post-image-container", "portrait", "wide"]
          [.img ["post-image", "portrait"] 1600 900 true]]) [0, 0]) [0]
        = ["post-image-container", "wide", "landscape"]
      ∧ classListAt (detectImageOrientation
        (.div ["square"] [.div ["post-image-container", "portrait", "wide"]
          [.img ["post-image", "portrait"] 1600 900 true]]) [0, 0]) [0, 0]
        = ["post-image", "portrait"]
      ∧ classListAt (detectImageOrientation
        (.div ["square"] [.div ["post-image-container", "portrait", "wide"]
          [.img ["post-image", "portrait"] 1600 900 true]]) [0, 0]) []
        = ["square"] := by
  have h := C10_only_container_labels_change
    (.div ["square"] [.div ["post-image-container", "portrait", "wide"]
      [.img ["post-image", "portrait"] 1600 900 true]]) [0, 0] [0]
    (.img ["post-image", "portrait"] 1600 900 true) rfl (by decide)
  refine ⟨by decide!, ?_, ?_⟩
  · rw [h.2.2.1 [0, 0] (by decide)]
    decide
  · rw [h.2.2.1 [] (by decide)]
    decide

/-! ## ThemeManager: lemmas and claims -/

theorem Element.find?_setAttr (name value : String) :
    ∀ attrs : List (String × String),
      (Element.setAttr name value attrs).find? (fun kv => kv.1 == name) = some (name, value) := by
  intro attrs
  induction attrs with
  | nil => simp [Element.setAttr]
  | cons kv rest ih =>
    unfold Element.setAttr
    by_cases h : (kv.1 == name) = true
    · rw [if_pos h]
      simp
    · rw [if_neg h, List.find?_cons]
      simp only [Bool.not_eq_true] at h
      rw [h]
      exact ih

theorem Element.setAttr_setAttr (name value : String) :
    ∀ attrs : List (String × String),
      Element.setAttr name value (Element.setAttr name value attrs)
        = Element.setAttr name value attrs := by
  intro attrs
  induction attrs with
  | nil => simp [Element.setAttr]
  | cons kv rest ih =>
    by_cases h : (kv.1 == name) = true
    · have h1 : Element.setAttr name value (kv :: rest) = (name, value) :: rest := by
        rw [Element.setAttr, if_pos h]
      rw [h1, Element.setAttr, if_pos (by simp)]
    · have h1 : Element.setAttr name value (kv :: rest)
          = kv :: Element.setAttr name value rest := by
        rw [Element.setAttr, if_neg h]
      rw [h1, Element.setAttr, if_neg h, ih]

/-- Reading an attribute that was just set gives the value set. -/
theorem Element.getAttribute_setAttribute (e : Element) (name value : String) :
    (e.setAttribute name value).getAttribute name = some value := by
  cases e with
  | mk pr cs =>
    simp only [Element.setAttribute, Element.getAttribute, Element.props,
      Element.find?_setAttr, Option.map]

theorem Element.setAttribute_setAttribute (e : Element) (name value : String) :
    (e.setAttribute name value).setAttribute name value = e.setAttribute name value := by
  cases e with
  | mk pr cs =>
    simp only [Element.setAttribute, Element.setAttr_setAttr]

theorem applyTheme_applyTheme (page : Page) (v : String) :
    applyTheme (applyTheme page v) v = applyTheme page v := by
  simp only [applyTheme, Element.setAttribute_setAttribute]

theorem applyTheme_observed (page : Page) (v : String) :
    (applyTheme page v).document.getAttribute "data-bs-theme" = some v
      ∧ getCurrentTheme (applyTheme page v) = v := by
  simp only [applyTheme, getCurrentTheme, Element.getAttribute_setAttribute, and_self]

theorem iterate_applyTheme (v : String) :
    ∀ (n : Nat) (page : Page),
      (fun p => applyTheme p v)^[n + 1] page = applyTheme page v := by
  intro n
  induction n with
  | zero => intro page; rfl
  | succ n ih =>
    intro page
    rw [Function.iterate_succ_apply, ih, applyTheme_applyTheme]

theorem dispatchChange_of_listener (page : Page) (e : MediaQueryListEvent) (n : Nat)
    (h : page.changeListeners = n + 1) :
    dispatchChange page e = applyTheme page (if e.matches then "dark" else "light") := by
  unfold dispatchChange handleThemeChange
  rw [h]
  exact iterate_applyTheme _ n page

theorem changeListeners_dispatchChange (page : Page) (e : MediaQueryListEvent) :
    (dispatchChange page e).changeListeners = page.changeListeners := by
  cases hn : page.changeListeners with
  | zero =>
    unfold dispatchChange
    rw [hn]
    exact hn
  | succ n =>
    rw [dispatchChange_of_listener page e n hn]
    exact hn

theorem changeListeners_foldl_dispatchChange (es : List MediaQueryListEvent) :
    ∀ page : Page, (es.foldl dispatchChange page).changeListeners = page.changeListeners := by
  induction es with
  | nil => intro page; rfl
  | cons e es ih =>
    intro page
    rw [List.foldl_cons, ih, changeListeners_dispatchChange]

/-- Claim C3: `getSystemTheme` returns `dark` exactly when `matchMedia` is present
and the query `(prefers-color-scheme: dark)` matches, and `light` in every other
case; without `matchMedia` it returns `light`. -/
theorem C3_getSystemTheme_dark_iff (window : Window) (matchMedia : String → Bool) :
    (getSystemTheme window = "dark" ↔
        ∃ mm, window.matchMedia = some mm ∧ mm "(prefers-color-scheme: dark)" = true)
      ∧ (getSystemTheme window = "light" ↔
        ¬ ∃ mm, window.matchMedia = some mm ∧ mm "(prefers-color-scheme: dark)" = true)
      ∧ getSystemTheme ⟨none⟩ = "light"
      ∧ getSystemTheme ⟨some matchMedia⟩
        = (if matchMedia "(prefers-color-scheme: dark)" then "dark" else "light") := by
  refine ⟨?_, ?_, rfl, rfl⟩
  · cases window with
    | mk mm =>
      cases mm with
      | none => simp [getSystemTheme]
      | some f =>
        cases hf : f "(prefers-color-scheme: dark)" <;> simp [getSystemTheme, hf]
  · cases window with
    | mk mm =>
      cases mm with
      | none => simp [getSystemTheme]
      | some f =>
        cases hf : f "(prefers-color-scheme: dark)" <;> simp [getSystemTheme, hf]

theorem new_eq (page : Page) :
    ThemeManager.new page =
      (match page.window.matchMedia with
        | some _ =>
          { applyTheme page (getSystemTheme page.window) with
            changeListeners := page.changeListeners + 1 }
        | none => applyTheme page (getSystemTheme page.window)) := by
  cases page with
  | mk window document themeManager changeListeners loadListeners mutationObservers =>
    cases window with
    | mk mm => cases mm <;> rfl

/-- Claim C4: after the constructor of `ThemeManager` has run, the attribute
`data-bs-theme` of the document element is the value `getSystemTheme` returns
for the window, and `getCurrentTheme` returns that value too. -/
theorem C4_constructor_applies_system_theme (page : Page) :
    (ThemeManager.new page).document.getAttribute "data-bs-theme"
        = some (getSystemTheme page.window)
      ∧ getCurrentTheme (ThemeManager.new page) = getSystemTheme page.window
      ∧ getSystemTheme (ThemeManager.new page).window = getSystemTheme page.window := by
  rw [new_eq]
  cases page.window.matchMedia with
  | none =>
    exact ⟨(applyTheme_observed page _).1, (applyTheme_observed page _).2, rfl⟩
  | some mm =>
    exact ⟨(applyTheme_observed page _).1, (applyTheme_observed page _).2, rfl⟩

/-- Claim C5: after construction in a window that has `matchMedia`, whatever
`change` events are dispatched, after each of them the attribute
`data-bs-theme` and `getCurrentTheme` are `dark` when that event has `matches`
true and `light` when it has `matches` false. -/
theorem C5_change_events_tracked (page : Page) (matchMedia : String → Bool)
    (hmm : page.window.matchMedia = some matchMedia)
    (es : List MediaQueryListEvent) (e : MediaQueryListEvent) :
    ((es ++ [e]).foldl dispatchChange (ThemeManager.new page)).document.getAttribute
          "data-bs-theme" = some (if e.matches then "dark" else "light")
      ∧ getCurrentTheme ((es ++ [e]).foldl dispatchChange (ThemeManager.new page))
        = (if e.matches then "dark" else "light") := by
  have hn : (ThemeManager.new page).changeListeners = page.changeListeners + 1 := by
    rw [new_eq, hmm]
  rw [List.foldl_append, List.foldl_cons, List.foldl_nil]
  rw [dispatchChange_of_listener _ e page.changeListeners
    (by rw [changeListeners_foldl_dispatchChange, hn])]
  exact applyTheme_observed _ _

/-- A window whose dark query matches at construction, then the events light,
dark, light: the theme ends as `light`. -/
theorem C5_change_events_tracked_witness :
    getCurrentTheme (([MediaQueryListEvent.mk false, MediaQueryListEvent.mk true]
        ++ [MediaQueryListEvent.mk false]).foldl dispatchChange
      (ThemeManager.new ⟨⟨some (fun _ => true)⟩, .div [] [], ⟨""⟩, 0, [], 0⟩))
      = "light" :=
  (C5_change_events_tracked ⟨⟨some (fun _ => true)⟩, .div [] [], ⟨""⟩, 0, [], 0⟩
    (fun _ => true) rfl [MediaQueryListEvent.mk false, MediaQueryListEvent.mk true]
    (MediaQueryListEvent.mk false)).2

/-- Claim C9: `applyTheme` is idempotent: applying a theme twice leaves the page
that applying it once leaves, with the attribute `data-bs-theme` and the held
theme both equal to that theme. -/
theorem C9_applyTheme_idempotent (page : Page) (v : String) :
    applyTheme (applyTheme page v) v = applyTheme page v
      ∧ (applyTheme page v).document.getAttribute "data-bs-theme" = some v
      ∧ getCurrentTheme (applyTheme page v) = v
      ∧ (applyTheme (applyTheme page v) v).document.getAttribute "data-bs-theme" = some v
      ∧ getCurrentTheme (applyTheme (applyTheme page v) v) = v :=
  ⟨applyTheme_applyTheme page v, (applyTheme_observed page v).1, (applyTheme_observed page v).2,
    (applyTheme_observed _ v).1, (applyTheme_observed _ v).2⟩

/-! ## Scheduling, load events and the mutation observer -/

/-- Classifying images whose container is not `c` keeps the class list of `c`
and every answer of `closest`. -/
theorem foldl_detect_keep (c : NodeRef) :
    ∀ (ls : List NodeRef) (doc : Element),
      (∀ l ∈ ls, doc.closest "post-image-container" l ≠ some c) →
      (∀ q, (ls.foldl detectImageOrientation doc).closest "post-image-container" q
          = doc.closest "post-image-container" q)
        ∧ classListAt (ls.foldl detectImageOrientation doc) c = classListAt doc c := by
  intro ls
  induction ls with
  | nil => intro doc _; exact ⟨fun _ => rfl, rfl⟩
  | cons l ls ih =>
    intro doc h
    rw [List.foldl_cons]
    have hl := h l (List.mem_cons_self _ _)
    obtain ⟨ih1, ih2⟩ := ih (detectImageOrientation doc l) (by
      intro x hx
      rw [closest_detect]
      exact h x (List.mem_cons_of_mem _ hx))
    refine ⟨?_, ?_⟩
    · intro q
      rw [ih1 q, closest_detect]
    · rw [ih2, classListAt_detect_other doc l c hl]

/-- The load of an image whose container is not `c` keeps the class list of `c`
and every answer of `closest`. -/
theorem dispatchLoad_keep (c : NodeRef) (page : Page) (img : NodeRef) (w h : Nat)
    (hne : page.document.closest "post-image-container" img ≠ some c) :
    (∀ q, (dispatchLoad page img w h).document.closest "post-image-container" q
        = page.document.closest "post-image-container" q)
      ∧ classListAt (dispatchLoad page img w h).document c = classListAt page.document c
      ∧ (dispatchLoad page img w h).loadListeners = page.loadListeners := by
  have hcl : ∀ q, (page.document.update (ElementProps.loaded w h) img).closest
      "post-image-container" q = page.document.closest "post-image-container" q :=
    fun q => Element.closest_update _ (ElementProps.loaded w h) (fun _ => Iff.rfl) q img _
  obtain ⟨k1, k2⟩ := foldl_detect_keep c
    (page.loadListeners.filter (fun l => decide (l = img)))
    (page.document.update (ElementProps.loaded w h) img) (by
      intro l hl
      have hli : l = img := of_decide_eq_true (List.mem_filter.mp hl).2
      rw [hli, hcl]
      exact hne)
  refine ⟨?_, ?_, rfl⟩
  · intro q
    unfold dispatchLoad
    simp only []
    rw [k1 q, hcl q]
  · unfold dispatchLoad
    simp only []
    rw [k2]
    exact classListAt_update_keep (ElementProps.loaded w h) (fun _ => rfl) _ _ _

/-- Any sequence of loads of images whose container is not `c` keeps the class
list of `c`. -/
theorem foldl_dispatchLoad_keep (c : NodeRef) :
    ∀ (loads : List (NodeRef × Nat × Nat)) (page : Page),
      (∀ x ∈ loads, page.document.closest "post-image-container" x.1 ≠ some c) →
      classListAt (loads.foldl (fun p x => dispatchLoad p x.1 x.2.1 x.2.2) page).document c
        = classListAt page.document c := by
  intro loads
  induction loads with
  | nil => intro page _; rfl
  | cons x loads ih =>
    intro page h
    rw [List.foldl_cons]
    obtain ⟨k1, k2, _⟩ := dispatchLoad_keep c page x.1 x.2.1 x.2.2 (h x (List.mem_cons_self _ _))
    rw [ih (dispatchLoad page x.1 x.2.1 x.2.2) (by
      intro y hy
      rw [k1]
      exact h y (List.mem_cons_of_mem _ hy)), k2]

/-- The path of lines 102-104: scheduling an image whose `complete` is false
registers a `load` listener and leaves the document as it was; and whatever
`load` events are then dispatched on images with another container (or none),
which excludes its own load, the class list of its container stays what it
was.  Only `load` events are considered here, not further runs of the script. -/
theorem scheduleImage_incomplete_waits (page : Page) (img c : NodeRef) (el : Element)
    (loads : List (NodeRef × Nat × Nat))
    (hget : page.document.get? img = some el) (hcomplete : el.complete = false)
    (hc : page.document.closest "post-image-container" img = some c)
    (hloads : ∀ x ∈ loads, page.document.closest "post-image-container" x.1 ≠ some c) :
    (scheduleImage page img).document = page.document
      ∧ (scheduleImage page img).loadListeners = page.loadListeners ++ [img]
      ∧ classListAt (loads.foldl (fun p x => dispatchLoad p x.1 x.2.1 x.2.2)
          (scheduleImage page img)).document c = classListAt page.document c
      ∧ (∀ x ∈ loads, x.1 ≠ img) := by
  have hs : scheduleImage page img
      = { page with loadListeners := page.loadListeners ++ [img] } := by
    unfold scheduleImage
    rw [hget]
    simp only [hcomplete]
    rfl
  refine ⟨by rw [hs], by rw [hs], ?_, ?_⟩
  · rw [foldl_dispatchLoad_keep c loads (scheduleImage page img) (by rw [hs]; exact hloads), hs]
  · intro x hx hxi
    apply hloads x hx
    rw [hxi]
    exact hc

/-- Two containers, an unloaded image in the first and an unloaded image in the
second: the first image is scheduled, then the second one loads as 1600 by 900;
the first container still has no label. -/
theorem scheduleImage_incomplete_waits_example :
    classListAt ([(([1, 0] : NodeRef), 1600, 900)].foldl
        (fun p x => dispatchLoad p x.1 x.2.1 x.2.2)
        (scheduleImage
          ⟨⟨none⟩, .div [] [.div ["post-image-container"] [.img ["post-image"] 0 0 false],
              .div ["post-image-container"] [.img ["post-image"] 0 0 false]],
            ⟨"light"⟩, 0, [[1, 0]], 0⟩ [0, 0])).document [0]
      = ["post-image-container"] := by
  have h := (scheduleImage_incomplete_waits
    ⟨⟨none⟩, .div [] [.div ["post-image-container"] [.img ["post-image"] 0 0 false],
        .div ["post-image-container"] [.img ["post-image"] 0 0 false]],
      ⟨"light"⟩, 0, [[1, 0]], 0⟩ [0, 0] [0] (.img ["post-image"] 0 0 false)
    [(([1, 0] : NodeRef), 1600, 900)] rfl rfl (by decide) (by decide)).2.2.1
  rw [h]
  decide

/-- Claim C8 against the code: the broken image of `brokenImagePage` never fires
`load` and its container has no label, yet scheduling it (as
`initializeImageOrientationDetection` does) takes the branch of line 101,
commented `Image already loaded`, because `complete` is true: the container
gets the label `square` (the ratio `0 / 0` is `NaN`).  The sibling branch of
line 104 does what the claim says: the same image seen with `complete` false is
given a `load` listener and its container keeps no label. -/
theorem C8_broken_image_classified :
    brokenImagePage.document.get? [0, 0] = some (.img ["post-image"] 0 0 true)
      ∧ brokenImagePage.document.closest "post-image-container" [0, 0] = some [0]
      ∧ labelsOf (classListAt brokenImagePage.document [0]) = []
      ∧ labelsOf (classListAt (scheduleImage brokenImagePage [0, 0]).document [0]) = ["square"]
      ∧ (scheduleImage brokenImagePage [0, 0]).loadListeners = []
      ∧ labelsOf (classListAt
          (initializeImageOrientationDetection brokenImagePage).document [0]) = ["square"]
      ∧ labelsOf (classListAt
          (initializeImageOrientationDetection pendingBrokenImagePage).document [0]) = []
      ∧ (initializeImageOrientationDetection pendingBrokenImagePage).loadListeners
        = [[0, 0]] := by
  refine ⟨rfl, ?_, ?_, ?_, ?_, ?_, ?_, ?_⟩ <;> decide

/-- Every added element that itself carries the class `post-image` makes the
observer callback throw at line 116, before anything is scheduled. -/
theorem handleAddedNode_throws (page : Page) (ref : NodeRef) (el : Element)
    (hget : page.document.get? ref = some el) (hcls : "post-image" ∈ el.classList) :
    handleAddedNode page (.element ref)
      = ⟨page, some "TypeError: images.push is not a function"⟩ := by
  unfold handleAddedNode
  simp only [hget, if_pos hcls, ImageList.push]

/-- Claim C6 against the code: a post image appended to a container after
initialization is reported to the observer callback, which throws a `TypeError`
at line 116 and registers no `load` listener; when the image then loads as
1600 by 900 its container gets no orientation label.  When the image comes
inside a wrapper element the callback returns normally, registers the
listener, and the load labels the container `landscape`. -/
theorem C6_inserted_image_throws :
    (mutationCallback galleryWithImage [⟨[.element [0, 0]]⟩]).thrown
        = some "TypeError: images.push is not a function"
      ∧ (mutationCallback galleryWithImage [⟨[.element [0, 0]]⟩]).page.loadListeners = []
      ∧ labelsOf (classListAt (dispatchLoad
          (mutationCallback galleryWithImage [⟨[.element [0, 0]]⟩]).page
          [0, 0] 1600 900).document [0]) = []
      ∧ (mutationCallback galleryWithWrappedImage [⟨[.element [0, 0]]⟩]).thrown = none
      ∧ (mutationCallback galleryWithWrappedImage [⟨[.element [0, 0]]⟩]).page.loadListeners
        = [[0, 0, 0]]
      ∧ labelsOf (classListAt (dispatchLoad
          (mutationCallback galleryWithWrappedImage [⟨[.element [0, 0]]⟩]).page
          [0, 0, 0] 1600 900).document [0]) = ["landscape"] := by
  refine ⟨?_, ?_, ?_, ?_, ?_, ?_⟩ <;> decide!

end Hallor
